import Mathlib

/-!
# ghbacklog: milestone overview page

A shallow embedding of `main.go`: the flag set, the `cache` record and `handle`,
`generateOverview` with its filter, its issue loop and its title sort, the
`labelClass` template helper and the `byTitle` sort adapter.

External collaborators (the tracker client `github.com/calmh/github`, the
template engine, the clock and `sort.Sort`) are parameters of the model.
-/

namespace Ghbacklog

/-! ## Time -/

/-- A `time.Time` instant, as nanoseconds counted from the zero `time.Time`. -/
abbrev Time := Int

/-- A `time.Duration`: a signed 64-bit count of nanoseconds. -/
abbrev Duration := Int

/-- Largest `time.Duration`. -/
def maxDuration : Duration := 2 ^ 63 - 1

/-- Smallest `time.Duration`. -/
def minDuration : Duration := -(2 ^ 63)

/-- The method `t.Sub(u)` of package time: the difference `t - u`, saturated to the
range of `time.Duration`. Both instants are readings of the same clock, wall or
monotonic; the library saturates on either. -/
def Time.Sub (t u : Time) : Duration :=
  if t - u > maxDuration then maxDuration
  else if t - u < minDuration then minDuration
  else t - u

/-- The call `time.Since(t)` evaluated when the clock reads `now`: `time.Now().Sub(t)`. -/
def timeSince (now t : Time) : Duration := Time.Sub now t

/-- The constant `time.Hour`, in nanoseconds. -/
def Hour : Duration := 3600 * 1000000000

/-! ## Records of the tracker client -/

/-- Modelled from the spec: the record `github.Milestone` of the tracker client
package, which is not part of the source. The fields are the ones the data model
lists (number, title, optional due date, state); `Due` is the nil-able pointer
`main.go` tests. -/
structure github.Milestone where
  Number : Int
  Title : String
  Due : Option Time
  State : String
deriving DecidableEq, Repr

/-- Modelled from the spec: the record `github.Issue` of the tracker client
package, which is not part of the source. The fields are the ones the data model
lists (identifier, title, body, labels, owning milestone identifier). -/
structure github.Issue where
  Number : Int
  Title : String
  Body : String
  Labels : List String
  Milestone : Option Int
deriving DecidableEq, Repr

/-- The record `milestone` of `main.go`: an embedded `github.Milestone` together
with its issues. -/
structure milestone where
  Milestone : github.Milestone
  Issues : List github.Issue
deriving DecidableEq, Repr

/-! ## Flags -/

/-- The package-level variables set by the command line flags. -/
structure Flags where
  repo : String
  listen : String
  cacheTime : Duration
  includeDue : Bool
  includeNonDue : Bool
deriving DecidableEq, Repr

/-- The values of the flag variables when no flag is given. -/
def Flags.defaults : Flags :=
  { repo := "syncthing/syncthing", listen := ":8080", cacheTime := Hour,
    includeDue := true, includeNonDue := false }

/-! ## Template helper -/

/-- The `labelClass` entry of the template function map. -/
def labelClass (label : String) : String :=
  if label = "bug" then "danger"
  else if label = "enhancement" then "success"
  else "default"

/-! ## Milestone filter -/

/-- The filter loop of `generateOverview`: starting from the nil slice, every
milestone of `ms` that passes the flag test is appended, wrapped in a `milestone`
record with no issues yet. -/
def filterMilestones (includeDue includeNonDue : Bool) (ms : List github.Milestone) :
    List milestone :=
  ms.foldl
    (fun filteredMilestones m =>
      if (m.Due.isSome && includeDue) || (m.Due.isNone && includeNonDue) then
        filteredMilestones ++ [{ Milestone := m, Issues := [] }]
      else filteredMilestones)
    []

/-- The flag test of the filter loop. -/
def retained (includeDue includeNonDue : Bool) (m : github.Milestone) : Bool :=
  (m.Due.isSome && includeDue) || (m.Due.isNone && includeNonDue)

/-- Wrapping of a tracker milestone in an empty `milestone` record. -/
def wrap (m : github.Milestone) : milestone := { Milestone := m, Issues := [] }

/-- Milestone "v1.0" of the end-to-end scenario, due 2024-01-01 (any instant serves). -/
def exV1 : github.Milestone :=
  { Number := 1, Title := "v1.0", Due := some 63839664000000000000, State := "open" }

/-- Milestone "Backlog" of the end-to-end scenario, without due date. -/
def exBacklog : github.Milestone :=
  { Number := 2, Title := "Backlog", Due := none, State := "open" }

/-! ## Body normalisation -/

/-- The scan of `strings.Replace` for a non-empty `old`: `budget` is the number of
replacements still allowed (`none` for no limit), `skip` the number of characters
of an occurrence of `old` already replaced that are still to be passed over.
Occurrences are found left to right and do not overlap. -/
def replaceScan (old new : List Char) : Option Nat → Nat → List Char → List Char
  | _, _, [] => []
  | budget, skip + 1, _ :: cs => replaceScan old new budget skip cs
  | budget, 0, c :: cs =>
    if budget ≠ some 0 ∧ old.isPrefixOf (c :: cs) then
      new ++ replaceScan old new (budget.map Nat.pred) (old.length - 1) cs
    else c :: replaceScan old new budget 0 cs

/-- The scan of `strings.Replace` for the empty `old`, which matches before every
character and at the end of the string. -/
def replaceEmpty (new : List Char) : Option Nat → List Char → List Char
  | budget, [] => if budget ≠ some 0 then new else []
  | budget, c :: cs =>
    if budget ≠ some 0 then new ++ c :: replaceEmpty new (budget.map Nat.pred) cs
    else c :: cs

/-- The function `strings.Replace(s, old, new, n)`: a copy of `s` with the first `n`
non-overlapping instances of `old` replaced by `new`; a negative `n` means no
limit. -/
def stringsReplace (s old new : String) (n : Int) : String :=
  if old = new ∨ n = 0 then s
  else
    let budget : Option Nat := if n < 0 then none else some n.toNat
    if old.data = [] then ⟨replaceEmpty new.data budget s.data⟩
    else ⟨replaceScan old.data new.data budget 0 s.data⟩

/-- The body rewrite of the issue loop: `strings.Replace(body, "\r\n", "\n", -1)`. -/
def normalizeBody (body : String) : String := stringsReplace body "\r\n" "\n" (-1)

/-- The inner loop over `issues`: each issue gets its body rewritten, nothing else
changes. -/
def normalizeBodies (issues : List github.Issue) : List github.Issue :=
  issues.map (fun i => { i with Body := normalizeBody i.Body })

/-- Left to right replacement of each carriage return plus line feed by a line
feed, on characters. -/
def crlfToLf : List Char → List Char
  | [] => []
  | c :: cs =>
    if c = '\r' ∧ cs.head? = some '\n' then '\n' :: crlfToLf cs.tail
    else c :: crlfToLf cs
termination_by l => l.length
decreasing_by
  all_goals simp_wf
  all_goals omega

/-! ## The refresh pipeline -/

deriving instance DecidableEq for Except

/-- A rendered page, `[]byte`. -/
abbrev Bytes := List UInt8

/-- The `url.Values` built with `make` and `Add`, as the key and value pairs in the
order they were added. -/
abbrev Values := List (String × String)

/-- The method `query.Add(key, value)`. -/
def Values.Add (query : Values) (key value : String) : Values := query ++ [(key, value)]

/-- The helpers a template can call. -/
inductive TemplateFunc where
  | stringsSplit
  | stringFunc (f : String → String)
  | timeNow

/-- The `template.FuncMap` of `generateOverview`. -/
abbrev FuncMap := List (String × TemplateFunc)

/-- The map handed to `tmpl.Execute`: keys "repo" and "milestones". -/
structure TemplateData where
  repo : String
  milestones : List milestone
deriving DecidableEq, Repr

/-- A parsed template: `tmpl.Execute` from the data to the bytes written into the
buffer, or an error. -/
abbrev Template := TemplateData → Except String Bytes

/-- A request sent to the tracker: the repository name and the query values. -/
inductive Call where
  | LoadMilestones (repo : String) (query : Values)
  | LoadIssues (repo : String) (query : Values)
deriving DecidableEq, Repr

/-- The repository name a tracker request is made for. -/
def Call.repo : Call → String
  | .LoadMilestones r _ => r
  | .LoadIssues r _ => r

/-- The world outside `main.go` as `generateOverview` sees it: the two tracker
calls of the client package, template parsing, and `sort.Sort` applied to a
`byTitle`. -/
structure Env where
  LoadMilestones : String → Values → Except String (List github.Milestone)
  LoadIssues : String → Values → Except String (List github.Issue)
  ParseGlob : FuncMap → String → Except String Template
  sortSort : List milestone → List milestone

/-- What one execution of `generateOverview` did: the tracker requests in the order
made, the data handed to the template, and the returned buffer. -/
structure Run where
  calls : List Call
  data : TemplateData
  bytes : Bytes
deriving DecidableEq, Repr

/-- The loop over `filteredMilestones` that fetches and attaches the issues of each
milestone; a fetch error is fatal. Returns the filled records and the requests
made. -/
def issuesLoop (env : Env) : List milestone → Except String (List milestone × List Call)
  | [] => .ok ([], [])
  | m :: rest =>
    let query := Values.Add [] "milestone" (toString m.Milestone.Number)
    match env.LoadIssues "syncthing/syncthing" query with
    | .error err => .error err
    | .ok issues =>
      let issues := normalizeBodies issues
      match issuesLoop env rest with
      | .error err => .error err
      | .ok (rest, calls) =>
        .ok ({ m with Issues := issues } :: rest,
          Call.LoadIssues "syncthing/syncthing" query :: calls)

/-- The body of `generateOverview`, keeping what it did next to what it returns.
`log.Fatal` and the panic of `template.Must` end the process: `Except.error`. -/
def generateOverviewRun (flags : Flags) (env : Env) : Except String Run :=
  let fm : FuncMap :=
    [("split", .stringsSplit), ("labelClass", .stringFunc labelClass), ("now", .timeNow)]
  match env.ParseGlob fm "*.go.html" with
  | .error err => .error err
  | .ok tmpl =>
    let query := Values.Add (Values.Add [] "sort" "due_date") "direction" "asc"
    match env.LoadMilestones "syncthing/syncthing" query with
    | .error err => .error err
    | .ok ms =>
      let filteredMilestones := filterMilestones flags.includeDue flags.includeNonDue ms
      match issuesLoop env filteredMilestones with
      | .error err => .error err
      | .ok (filteredMilestones, calls) =>
        let filteredMilestones := env.sortSort filteredMilestones
        let data : TemplateData := { repo := flags.repo, milestones := filteredMilestones }
        match tmpl data with
        | .error err => .error ("template execution: " ++ err)
        | .ok buf =>
          .ok { calls := Call.LoadMilestones "syncthing/syncthing" query :: calls,
                data := data, bytes := buf }

/-- The function `generateOverview`: the rendered page, or the fatal error. -/
def generateOverview (flags : Flags) (env : Env) : Except String Bytes :=
  match generateOverviewRun flags env with
  | .error err => .error err
  | .ok run => .ok run.bytes

/-! ## The title order -/

/-- The comparison `s < t` of two Go strings: lexicographic on the bytes, which on
UTF-8 text is lexicographic on the code points. -/
def stringLess (s t : String) : Bool := decide (s.data < t.data)

/-- The method `byTitle.Len`. -/
def byTitle.Len (l : List milestone) : Nat := l.length

/-- The method `byTitle.Less`: whether the title at index `a` is before the title at index
`b`. Indices outside the slice, where the program would panic, give `false`. -/
def byTitle.Less (l : List milestone) (a b : Nat) : Bool :=
  match l[a]?, l[b]? with
  | some x, some y => stringLess x.Milestone.Title y.Milestone.Title
  | _, _ => false

/-- The method `byTitle.Swap`: exchange of the records at indices `a` and `b`. Indices outside
the slice, where the program would panic, leave it as it is. -/
def byTitle.Swap (l : List milestone) (a b : Nat) : List milestone :=
  match l[a]?, l[b]? with
  | some x, some y => (l.set a y).set b x
  | _, _ => l

/-- A sequence of `Swap` calls with indices inside the slice. -/
def swapsWithin (n : Nat) (swaps : List (Nat × Nat)) : Prop :=
  ∀ p ∈ swaps, p.1 < n ∧ p.2 < n

/-- The slice after a sequence of `Swap` calls. -/
def applySwaps (l : List milestone) (swaps : List (Nat × Nat)) : List milestone :=
  swaps.foldl (fun data p => byTitle.Swap data p.1 p.2) l

/-- The slice `after` is what calls of `Swap` with indices below `n` make of
`before`. -/
def SwapReach (n : Nat) (before after : List milestone) : Prop :=
  ∃ swaps, swapsWithin n swaps ∧ after = applySwaps before swaps

/-- The contract of `sort.Sort` on a `byTitle`: the slice is changed by calls of
`Swap` only, and in the end `Less(i+1, i)` is false at every index, which is what
`sort.IsSorted` tests. Nothing is promised about records with equal titles. -/
def SortContract (sortSort : List milestone → List milestone) : Prop :=
  ∀ l : List milestone,
    SwapReach (byTitle.Len l) l (sortSort l)
    ∧ ∀ i, i + 1 < byTitle.Len (sortSort l) → byTitle.Less (sortSort l) (i + 1) i = false

/-- Non-decreasing order of titles along a slice. -/
def TitleSorted (l : List milestone) : Prop :=
  l.Pairwise (fun a b => a.Milestone.Title ≤ b.Milestone.Title)

/-- The inner loop of `insertionSort` of package sort:
`for j := i; j > a && data.Less(j, j-1); j-- { data.Swap(j, j-1) }`. -/
def insertionInner (a : Nat) : Nat → List milestone → List milestone
  | 0, data => data
  | j + 1, data =>
    if a < j + 1 ∧ byTitle.Less data (j + 1) j = true then
      insertionInner a j (byTitle.Swap data (j + 1) j)
    else data

/-- The outer loop of `insertionSort`, `for i := a + 1; i < b; i++`, with `count`
iterations left and the loop variable at `i`. -/
def insertionOuter (a : Nat) : Nat → Nat → List milestone → List milestone
  | 0, _, data => data
  | count + 1, i, data => insertionOuter a count (i + 1) (insertionInner a i data)

/-- The function `insertionSort(data, a, b)` of package sort on a `byTitle`. -/
def insertionSort (data : List milestone) (a b : Nat) : List milestone :=
  insertionOuter a (b - (a + 1)) (a + 1) data

/-- The pass with gap 6 that `quickSort` of package sort, as released up to Go 1.18, makes
before `insertionSort` on a range of at most 12 elements:
`for i := a + 6; i < b; i++ { if data.Less(i, i-6) { data.Swap(i, i-6) } }`,
with `count` iterations left and the loop variable at `i`. -/
def gapPass : Nat → Nat → List milestone → List milestone
  | 0, _, data => data
  | count + 1, i, data =>
    gapPass count (i + 1) (if byTitle.Less data i (i - 6) = true then byTitle.Swap data i (i - 6) else data)

/-- The code `sort.Sort` runs on a slice of at most 12 elements in the releases up
to Go 1.18 that have the gap pass:
`quickSort(data, 0, n, maxDepth(n))` skips its partition loop and, when `n > 1`,
makes the gap pass and then `insertionSort(data, 0, n)`. On longer slices this is
still a sort, though not the one the library runs. -/
def sortSmall (data : List milestone) : List milestone :=
  let n := byTitle.Len data
  if n > 1 then insertionSort (gapPass (n - 6) 6 data) 0 n else data

/-- What `sort.Sort` of Go 1.19 and later runs on a slice of at most 12 elements:
`insertionSort(data, 0, n)` alone. -/
def sortInsertion (data : List milestone) : List milestone :=
  insertionSort data 0 (byTitle.Len data)

/-- Stability of a rearrangement: for every title, the records with that title come
in the same order before and after. -/
def StableOn (before after : List milestone) : Prop :=
  ∀ title : String,
    after.filter (fun m => m.Milestone.Title = title)
      = before.filter (fun m => m.Milestone.Title = title)

/-! ## The cache and the request handler -/

/-- The package-level variable `cache`: the rendered page and the time of the last
refresh. The mutex it embeds is held from entry to exit of `handle`. -/
structure cache where
  data : Bytes
  updated : Time
deriving DecidableEq, Repr

/-- The zero value of `cache`, its state at process start. -/
def cache.zero : cache := { data := [], updated := 0 }

/-- What `handle` sends: the header it sets and the body it writes. -/
structure Response where
  header : List (String × String)
  body : Bytes
deriving DecidableEq, Repr

/-- What one execution of `handle` did: how many times it ran `generateOverview`,
and either the fatal error that ended the process or the cache it leaves and the
response it wrote. -/
structure HandleRun where
  refreshes : Nat
  result : Except String (cache × Response)

/-- The function `handle`, run under the cache lock. `t1` is the clock reading
inside `time.Since(cache.updated)` and `t2` the reading of the `time.Now()` that
follows a refresh. -/
def handle (flags : Flags) (env : Env) (t1 t2 : Time) (c : cache) : HandleRun :=
  if timeSince t1 c.updated > flags.cacheTime then
    match generateOverview flags env with
    | .error err => { refreshes := 1, result := .error err }
    | .ok data =>
      { refreshes := 1,
        result := .ok ({ data := data, updated := t2 },
          { header := [("Content-Type", "text/html; charset=utf-8")], body := data }) }
  else
    { refreshes := 0,
      result := .ok (c, { header := [("Content-Type", "text/html; charset=utf-8")],
                          body := c.data }) }

/-- What serving a queue of requests did: how many times `generateOverview` ran in
all, and either the fatal error that ended the process or the cache left at the end
and the responses written, in the order served. -/
structure ServeRun where
  refreshes : Nat
  result : Except String (cache × List Response)
deriving DecidableEq

/-- The executions of `handle` for requests that wait on the cache lock. The lock is
a `sync.Mutex`, taken by its contract: one execution runs from `cache.Lock()` to the
deferred `cache.Unlock()` before the next one starts. So the queue is served one
request after the other, each from the cache the one before left. A request is given
by its two clock readings, as in `handle`. A fatal error ends the process: the
requests behind it are not served. -/
def serve (flags : Flags) (env : Env) : List (Time × Time) → cache → ServeRun
  | [], c => { refreshes := 0, result := .ok (c, []) }
  | (t1, t2) :: rest, c =>
    match (handle flags env t1 t2 c).result with
    | .error err =>
      { refreshes := (handle flags env t1 t2 c).refreshes, result := .error err }
    | .ok (c1, response) =>
      match (serve flags env rest c1).result with
      | .error err =>
        { refreshes := (handle flags env t1 t2 c).refreshes + (serve flags env rest c1).refreshes,
          result := .error err }
      | .ok (c2, responses) =>
        { refreshes := (handle flags env t1 t2 c).refreshes + (serve flags env rest c1).refreshes,
          result := .ok (c2, response :: responses) }

/-! ## A small world for concrete runs -/

/-- An issue of milestone 1 whose body has a CRLF line ending. -/
def exIssue1 : github.Issue :=
  { Number := 11, Title := "crash on start", Body := "steps\r\nlog", Labels := ["bug"],
    Milestone := some 1 }

/-- An issue of milestone 2. -/
def exIssue2 : github.Issue :=
  { Number := 12, Title := "dark mode", Body := "please", Labels := ["enhancement"],
    Milestone := some 2 }

/-- A milestone of another repository. -/
def exOther : github.Milestone :=
  { Number := 5, Title := "first release", Due := some 1, State := "open" }

/-- A template that writes the length of the repository name and then the number of
each milestone, one byte each. -/
def exTemplate : Template :=
  fun data =>
    .ok (data.repo.length.toUInt8
      :: data.milestones.map (fun m => m.Milestone.Number.toNat.toUInt8))

/-- A tracker with two repositories, a template that parses, and the sort the
library runs on short slices. -/
def exEnv : Env where
  LoadMilestones := fun repo _ =>
    if repo = "syncthing/syncthing" then .ok [exV1, exBacklog]
    else if repo = "calmh/ghbacklog" then .ok [exOther]
    else .error "404 Not Found"
  LoadIssues := fun repo query =>
    if repo = "syncthing/syncthing" ∧ query = [("milestone", "1")] then .ok [exIssue1]
    else if repo = "syncthing/syncthing" ∧ query = [("milestone", "2")] then .ok [exIssue2]
    else .ok []
  ParseGlob := fun _ _ => .ok exTemplate
  sortSort := sortInsertion

/-- Flags that keep milestones with and without a due date. -/
def exFlagsAll : Flags := { Flags.defaults with includeNonDue := true }

/-- The run of `generateOverview` in the small world when both kinds of milestone
are kept: "Backlog" sorts before "v1.0", and the CRLF of the first issue body has
become LF. -/
def exRunAll : Run :=
  { calls :=
      [Call.LoadMilestones "syncthing/syncthing" [("sort", "due_date"), ("direction", "asc")],
       Call.LoadIssues "syncthing/syncthing" [("milestone", "1")],
       Call.LoadIssues "syncthing/syncthing" [("milestone", "2")]],
    data :=
      { repo := "syncthing/syncthing",
        milestones :=
          [{ Milestone := exBacklog, Issues := [exIssue2] },
           { Milestone := exV1, Issues := [{ exIssue1 with Body := "steps\nlog" }] }] },
    bytes := [19, 2, 1] }

/-- The run of `generateOverview` in the small world when the repo flag is
"calmh/ghbacklog" and the other flags have their defaults. -/
def exRunOtherRepo : Run :=
  { calls :=
      [Call.LoadMilestones "syncthing/syncthing" [("sort", "due_date"), ("direction", "asc")],
       Call.LoadIssues "syncthing/syncthing" [("milestone", "1")]],
    data :=
      { repo := "calmh/ghbacklog",
        milestones :=
          [{ Milestone := exV1, Issues := [{ exIssue1 with Body := "steps\nlog" }] }] },
    bytes := [15, 1] }

/-- A dated milestone with the given number and title. -/
def exDated (number : Int) (title : String) : github.Milestone :=
  { Number := number, Title := title, Due := some (number * Hour), State := "open" }

/-- Seven dated milestones in due date order; the first two share the title "b" and
the last has the smallest title. -/
def exSeven : List github.Milestone :=
  [exDated 1 "b", exDated 2 "b", exDated 3 "c", exDated 4 "d", exDated 5 "e", exDated 6 "f",
   exDated 7 "a"]

/-- A world whose tracker returns the seven milestones, none with issues, and whose
`sort.Sort` is the one with the gap pass for short slices. -/
def exEnvSeven : Env where
  LoadMilestones := fun _ _ => .ok exSeven
  LoadIssues := fun _ _ => .ok []
  ParseGlob := fun _ _ => .ok exTemplate
  sortSort := sortSmall

/-- The run of `generateOverview` on the seven milestones: milestone 2 now stands
before milestone 1. -/
def exRunSeven : Run :=
  { calls :=
      Call.LoadMilestones "syncthing/syncthing" [("sort", "due_date"), ("direction", "asc")]
        :: [1, 2, 3, 4, 5, 6, 7].map (fun (k : Int) =>
              Call.LoadIssues "syncthing/syncthing" [("milestone", toString k)]),
    data :=
      { repo := "syncthing/syncthing",
        milestones :=
          [wrap (exDated 7 "a"), wrap (exDated 2 "b"), wrap (exDated 1 "b"),
           wrap (exDated 3 "c"), wrap (exDated 4 "d"), wrap (exDated 5 "e"),
           wrap (exDated 6 "f")] },
    bytes := [19, 7, 2, 1, 3, 4, 5, 6] }

/-! ## Theorems -/

theorem filterMilestones_foldl (d n : Bool) (ms : List github.Milestone) (acc : List milestone) :
    ms.foldl
      (fun filteredMilestones m =>
        if (m.Due.isSome && d) || (m.Due.isNone && n) then
          filteredMilestones ++ [{ Milestone := m, Issues := [] }]
        else filteredMilestones)
      acc
    = acc ++ (ms.filter (retained d n)).map wrap := by
  induction ms generalizing acc with
  | nil => simp
  | cons m ms ih =>
    simp only [List.foldl_cons, ih, List.filter_cons, retained]
    split <;> simp [wrap]

theorem filterMilestones_eq (d n : Bool) (ms : List github.Milestone) :
    filterMilestones d n ms = (ms.filter (retained d n)).map wrap := by
  unfold filterMilestones
  rw [filterMilestones_foldl]
  simp

/-- C1: the filter of generateOverview keeps, in the tracker's order, exactly the
milestones with (due set and includeDue) or (due unset and includeNonDue); the four
flag settings keep the dated ones, the undated ones, none, and all; on the two
milestone scenario the defaults keep only "v1.0" and the flipped flags only
"Backlog". -/
theorem filterMilestones_spec :
    (∀ (d n : Bool) (M : List github.Milestone),
        filterMilestones d n M
          = (M.filter (fun m => (m.Due.isSome && d) || (m.Due.isNone && n))).map
              (fun m => { Milestone := m, Issues := [] }))
    ∧ (∀ M : List github.Milestone,
        filterMilestones true false M
          = (M.filter (fun m => m.Due.isSome)).map (fun m => { Milestone := m, Issues := [] }))
    ∧ (∀ M : List github.Milestone,
        filterMilestones false true M
          = (M.filter (fun m => m.Due.isNone)).map (fun m => { Milestone := m, Issues := [] }))
    ∧ (∀ M : List github.Milestone, filterMilestones false false M = [])
    ∧ (∀ M : List github.Milestone,
        filterMilestones true true M = M.map (fun m => { Milestone := m, Issues := [] }))
    ∧ (filterMilestones Flags.defaults.includeDue Flags.defaults.includeNonDue [exV1, exBacklog]).map
          (fun m => m.Milestone.Title) = ["v1.0"]
    ∧ (filterMilestones false true [exV1, exBacklog]).map (fun m => m.Milestone.Title)
          = ["Backlog"] := by
  refine ⟨?_, ?_, ?_, ?_, ?_, ?_, ?_⟩
  · intro d n M
    rw [filterMilestones_eq]; rfl
  · intro M
    rw [filterMilestones_eq]
    have : retained true false = fun m : github.Milestone => m.Due.isSome := by
      funext m; simp [retained]
    rw [this]; rfl
  · intro M
    rw [filterMilestones_eq]
    have : retained false true = fun m : github.Milestone => m.Due.isNone := by
      funext m; simp [retained]
    rw [this]; rfl
  · intro M
    rw [filterMilestones_eq]
    have : retained false false = fun _ : github.Milestone => false := by
      funext m; simp [retained]
    rw [this]; simp
  · intro M
    rw [filterMilestones_eq]
    have : retained true true = fun _ : github.Milestone => true := by
      funext m; cases h : m.Due <;> simp [retained, h]
    rw [this]; simp [wrap]
  · decide
  · decide

/-- C9: labelClass is a total mapping sending "bug" to "danger", "enhancement" to
"success" and every other string to "default". -/
theorem labelClass_spec :
    labelClass "bug" = "danger"
    ∧ labelClass "enhancement" = "success"
    ∧ ∀ s : String, s ≠ "bug" → s ≠ "enhancement" → labelClass s = "default" := by
  refine ⟨by decide, by decide, ?_⟩
  intro s h1 h2
  simp [labelClass, h1, h2]

/-- C9 at the label "anything-else". -/
theorem labelClass_spec_witness :
    "anything-else" ≠ "bug" ∧ "anything-else" ≠ "enhancement"
      ∧ labelClass "anything-else" = "default" :=
  ⟨by decide, by decide, labelClass_spec.2.2 "anything-else" (by decide) (by decide)⟩

/-! ### The tracker requests -/

theorem issuesLoop_calls (env : Env) (l out : List milestone) (calls : List Call)
    (h : issuesLoop env l = .ok (out, calls)) :
    calls = l.map (fun m =>
      Call.LoadIssues "syncthing/syncthing" [("milestone", toString m.Milestone.Number)]) := by
  induction l generalizing out calls with
  | nil =>
    simp only [issuesLoop, Except.ok.injEq, Prod.mk.injEq] at h
    simp [← h.2]
  | cons m rest ih =>
    simp only [issuesLoop] at h
    split at h
    · cases h
    · split at h
      · cases h
      · rename_i rest1 calls1 hrest
        simp only [Except.ok.injEq, Prod.mk.injEq] at h
        rw [← h.2, ih _ _ hrest]
        simp [Values.Add]

/-- Every tracker request of a run of generateOverview names the repository
"syncthing/syncthing", and the template is handed the value of the repo flag. -/
theorem generateOverviewRun_repo (flags : Flags) (env : Env) (run : Run)
    (h : generateOverviewRun flags env = .ok run) :
    (∀ call ∈ run.calls, call.repo = "syncthing/syncthing") ∧ run.data.repo = flags.repo := by
  simp only [generateOverviewRun] at h
  split at h
  · cases h
  · split at h
    · cases h
    · split at h
      · cases h
      · rename_i out calls hloop
        split at h
        · cases h
        · simp only [Except.ok.injEq] at h
          subst h
          refine ⟨?_, rfl⟩
          intro call hc
          rw [issuesLoop_calls _ _ _ _ hloop] at hc
          simp only [List.mem_cons, List.mem_map] at hc
          rcases hc with rfl | ⟨m, _, rfl⟩ <;> rfl

/-- C2 at the flag value "calmh/ghbacklog": the run hands "calmh/ghbacklog" to the
template under "repo", yet every tracker request names "syncthing/syncthing" and the
milestone rendered is the one of that repository. -/
theorem generateOverview_ignores_repo_flag :
    generateOverviewRun { Flags.defaults with repo := "calmh/ghbacklog" } exEnv
        = .ok exRunOtherRepo
    ∧ exRunOtherRepo.data.repo = "calmh/ghbacklog"
    ∧ exRunOtherRepo.calls.map Call.repo = ["syncthing/syncthing", "syncthing/syncthing"]
    ∧ exRunOtherRepo.data.milestones.map (fun m => m.Milestone.Title) = ["v1.0"] := by
  refine ⟨by decide, by decide, by decide, by decide⟩

/-! ### The cache gate -/

theorem timeSince_eq_sub (now t : Time) (h1 : minDuration ≤ now - t) (h2 : now - t ≤ maxDuration) :
    timeSince now t = now - t := by
  unfold timeSince Time.Sub
  rw [if_neg (not_lt.mpr h2), if_neg (not_lt.mpr h1)]

theorem timeSince_le_of_sub_lt (now t : Time) (d : Duration) (hd : minDuration ≤ d)
    (h : now - t < d) : timeSince now t ≤ d := by
  unfold timeSince Time.Sub
  split
  · rename_i hgt
    exact le_of_lt (lt_trans hgt h)
  · split
    · exact hd
    · exact le_of_lt h

/-- C3, amended: when the duration since the last refresh, as time.Since computes it
at the request, is strictly greater than cacheTime, handle runs generateOverview
exactly once; when that run returns a buffer, the cache holds this buffer and the
clock reading taken after the run, and the response body is this buffer; when it
ends in a fatal error, so does handle. -/
theorem handle_stale (flags : Flags) (env : Env) (t1 t2 : Time) (c : cache)
    (h : flags.cacheTime < timeSince t1 c.updated) :
    (handle flags env t1 t2 c).refreshes = 1
    ∧ (∀ buf, generateOverview flags env = .ok buf →
        (handle flags env t1 t2 c).result
          = .ok ({ data := buf, updated := t2 },
              { header := [("Content-Type", "text/html; charset=utf-8")], body := buf }))
    ∧ (∀ err, generateOverview flags env = .error err →
        (handle flags env t1 t2 c).result = .error err) := by
  unfold handle
  rw [if_pos h]
  cases hg : generateOverview flags env with
  | error e => simp
  | ok buf => simp

/-- C3, amended, one nanosecond after the default lifetime has passed. -/
theorem handle_stale_witness :
    Flags.defaults.cacheTime < timeSince (100 + Hour + 1) 100
    ∧ (handle Flags.defaults exEnv (100 + Hour + 1) (100 + Hour + 5) { data := [7], updated := 100 }).refreshes = 1
    ∧ (handle Flags.defaults exEnv (100 + Hour + 1) (100 + Hour + 5) { data := [7], updated := 100 }).result
        = .ok ({ data := [19, 1], updated := 100 + Hour + 5 },
            { header := [("Content-Type", "text/html; charset=utf-8")], body := [19, 1] }) :=
  ⟨by decide,
   (handle_stale Flags.defaults exEnv (100 + Hour + 1) (100 + Hour + 5)
      { data := [7], updated := 100 } (by decide)).1,
   (handle_stale Flags.defaults exEnv (100 + Hour + 1) (100 + Hour + 5)
      { data := [7], updated := 100 } (by decide)).2.1 [19, 1] (by decide)⟩

/-- C3 as stated fails when exactly cacheTime has passed: the request at
T0 + cacheTime runs no refresh and leaves buffer and timestamp as they were. -/
theorem handle_at_lifetime_no_refresh :
    (100 + Hour : Time) - 100 ≥ Flags.defaults.cacheTime
    ∧ (handle Flags.defaults exEnv (100 + Hour) (100 + Hour + 5) { data := [7], updated := 100 }).refreshes = 0
    ∧ (handle Flags.defaults exEnv (100 + Hour) (100 + Hour + 5) { data := [7], updated := 100 }).result
        = .ok ({ data := [7], updated := 100 },
            { header := [("Content-Type", "text/html; charset=utf-8")], body := [7] }) := by
  refine ⟨by decide, by decide, by decide⟩

/-- C4: when less than cacheTime has passed since the last refresh, handle does not
run generateOverview, leaves the cached buffer and the timestamp unchanged, and
writes the cached bytes as the response body. -/
theorem handle_fresh (flags : Flags) (env : Env) (t1 t2 : Time) (c : cache)
    (hd : minDuration ≤ flags.cacheTime) (h : t1 - c.updated < flags.cacheTime) :
    (handle flags env t1 t2 c).refreshes = 0
    ∧ (handle flags env t1 t2 c).result
        = .ok (c, { header := [("Content-Type", "text/html; charset=utf-8")], body := c.data }) := by
  have hle := timeSince_le_of_sub_lt t1 c.updated flags.cacheTime hd h
  unfold handle
  rw [if_neg (not_lt.mpr hle)]
  exact ⟨rfl, rfl⟩

/-- C4 half an hour after a refresh, with the default lifetime. -/
theorem handle_fresh_witness :
    minDuration ≤ Flags.defaults.cacheTime
    ∧ (100 + 1800000000000 : Time) - 100 < Flags.defaults.cacheTime
    ∧ (handle Flags.defaults exEnv (100 + 1800000000000) (100 + 1800000000005)
          { data := [7], updated := 100 }).refreshes = 0
    ∧ (handle Flags.defaults exEnv (100 + 1800000000000) (100 + 1800000000005)
          { data := [7], updated := 100 }).result
        = .ok ({ data := [7], updated := 100 },
            { header := [("Content-Type", "text/html; charset=utf-8")], body := [7] }) :=
  ⟨by decide, by decide,
   handle_fresh Flags.defaults exEnv (100 + 1800000000000) (100 + 1800000000005)
      { data := [7], updated := 100 } (by decide) (by decide)⟩

/-! ### Body normalisation -/

theorem replaceScan_crlf (n : Nat) :
    ∀ s : List Char, s.length ≤ n →
      replaceScan ['\r', '\n'] ['\n'] none 0 s = crlfToLf s := by
  induction n with
  | zero =>
    intro s hs
    have : s = [] := List.length_eq_zero.mp (Nat.le_zero.mp hs)
    subst this
    simp [replaceScan, crlfToLf]
  | succ n ih =>
    intro s hs
    match s with
    | [] => simp [replaceScan, crlfToLf]
    | [c] =>
      rw [crlfToLf]
      simp [replaceScan, List.isPrefixOf, crlfToLf]
    | c :: d :: rest =>
      rw [crlfToLf]
      simp only [List.length_cons] at hs
      by_cases hc : c = '\r'
      · by_cases hd : d = '\n'
        · subst hc hd
          have := ih rest (by omega)
          simp [replaceScan, List.isPrefixOf, this]
        · have := ih (d :: rest) (by simp only [List.length_cons]; omega)
          have hd2 : ¬ '\n' = d := fun h => hd h.symm
          rw [← this]
          simp [replaceScan, List.isPrefixOf, hc, hd, hd2]
      · have := ih (d :: rest) (by simp only [List.length_cons]; omega)
        have hc2 : ¬ '\r' = c := fun h => hc h.symm
        rw [← this]
        simp [replaceScan, List.isPrefixOf, hc, hc2]

theorem normalizeBody_data (b : String) : (normalizeBody b).data = crlfToLf b.data := by
  have h1 : ¬ (("\r\n" : String) = "\n" ∨ (-1 : Int) = 0) := by decide
  have h2 : ¬ (("\r\n" : String).data = []) := by decide
  have h3 : ((-1 : Int) < 0) := by decide
  unfold normalizeBody stringsReplace
  rw [if_neg h1]
  simp only [h2, h3, if_true, if_false]
  exact replaceScan_crlf _ _ (le_refl _)

theorem crlf_prefix_iff (c : Char) (cs : List Char) :
    ['\r', '\n'] <+: c :: cs ↔ c = '\r' ∧ cs.head? = some '\n' := by
  cases cs with
  | nil => simp [List.cons_prefix_cons]
  | cons d rest =>
    simp only [List.cons_prefix_cons, List.nil_prefix, and_true, List.head?_cons,
      Option.some.injEq]
    constructor
    · rintro ⟨h1, h2⟩; exact ⟨h1.symm, h2.symm⟩
    · rintro ⟨h1, h2⟩; exact ⟨h1.symm, h2.symm⟩

theorem crlfToLf_cons_crlf (rest : List Char) :
    crlfToLf ('\r' :: '\n' :: rest) = '\n' :: crlfToLf rest := by
  rw [crlfToLf]; simp

theorem crlfToLf_cons_other (c : Char) (cs : List Char)
    (h : ¬ (c = '\r' ∧ cs.head? = some '\n')) :
    crlfToLf (c :: cs) = c :: crlfToLf cs := by
  rw [crlfToLf]; rw [if_neg h]

theorem crlfToLf_head (cs : List Char) :
    (crlfToLf cs).head? = some '\n' ↔ cs.head? = some '\n' ∨ ['\r', '\n'] <+: cs := by
  match cs with
  | [] => simp [crlfToLf]
  | c :: rest =>
    by_cases h : c = '\r' ∧ rest.head? = some '\n'
    · obtain ⟨hc, hr⟩ := h
      subst hc
      cases rest with
      | nil => simp at hr
      | cons d rest2 =>
        simp only [List.head?_cons, Option.some.injEq] at hr
        subst hr
        rw [crlfToLf_cons_crlf]
        simp [crlf_prefix_iff]
    · rw [crlfToLf_cons_other c rest h, crlf_prefix_iff]
      simp only [List.head?_cons, Option.some.injEq]
      constructor
      · intro hc; exact Or.inl hc
      · rintro (hc | hp)
        · exact hc
        · exact absurd hp h

/-- The output of the CRLF rewrite contains CR LF exactly when its input contains
CR CR LF. -/
theorem crlfToLf_infix (n : Nat) :
    ∀ s : List Char, s.length ≤ n →
      (['\r', '\n'] <:+: crlfToLf s ↔ ['\r', '\r', '\n'] <:+: s) := by
  induction n with
  | zero =>
    intro s hs
    have : s = [] := List.length_eq_zero.mp (Nat.le_zero.mp hs)
    subst this
    simp [crlfToLf]
  | succ n ih =>
    intro s hs
    match s with
    | [] => simp [crlfToLf]
    | c :: cs =>
      simp only [List.length_cons] at hs
      by_cases h : c = '\r' ∧ cs.head? = some '\n'
      · obtain ⟨hc, hr⟩ := h
        subst hc
        cases cs with
        | nil => simp at hr
        | cons d rest =>
          simp only [List.head?_cons, Option.some.injEq] at hr
          subst hr
          simp only [List.length_cons] at hs
          rw [crlfToLf_cons_crlf, List.infix_cons_iff,
            @List.infix_cons_iff Char ['\r', '\r', '\n'] '\r' ('\n' :: rest),
            @List.infix_cons_iff Char ['\r', '\r', '\n'] '\n' rest, ih rest (by omega)]
          simp [List.cons_prefix_cons]
      · rw [crlfToLf_cons_other c cs h, List.infix_cons_iff,
          @List.infix_cons_iff Char ['\r', '\r', '\n'] c cs,
          ih cs (by omega), crlf_prefix_iff, crlfToLf_head]
        have hp : ['\r', '\r', '\n'] <+: c :: cs ↔ c = '\r' ∧ ['\r', '\n'] <+: cs := by
          rw [List.cons_prefix_cons]
          constructor
          · rintro ⟨h1, h2⟩; exact ⟨h1.symm, h2⟩
          · rintro ⟨h1, h2⟩; exact ⟨h1.symm, h2⟩
        rw [hp]
        constructor
        · rintro (⟨hc, hh | hh⟩ | hi)
          · exact absurd ⟨hc, hh⟩ h
          · exact Or.inl ⟨hc, hh⟩
          · exact Or.inr hi
        · rintro (⟨hc, hh⟩ | hi)
          · exact Or.inl ⟨hc, Or.inr hh⟩
          · exact Or.inr hi

/-- The CRLF rewrite leaves a text as it is exactly when the text contains no
CR LF. -/
theorem crlfToLf_eq_self_iff (n : Nat) :
    ∀ s : List Char, s.length ≤ n → (crlfToLf s = s ↔ ¬ ['\r', '\n'] <:+: s) := by
  induction n with
  | zero =>
    intro s hs
    have : s = [] := List.length_eq_zero.mp (Nat.le_zero.mp hs)
    subst this
    simp [crlfToLf]
  | succ n ih =>
    intro s hs
    match s with
    | [] => simp [crlfToLf]
    | c :: cs =>
      simp only [List.length_cons] at hs
      by_cases h : c = '\r' ∧ cs.head? = some '\n'
      · have hpre : ['\r', '\n'] <:+: c :: cs :=
          List.IsPrefix.isInfix ((crlf_prefix_iff c cs).mpr h)
        obtain ⟨hc, hr⟩ := h
        subst hc
        cases cs with
        | nil => simp at hr
        | cons d rest =>
          simp only [List.head?_cons, Option.some.injEq] at hr
          subst hr
          rw [crlfToLf_cons_crlf]
          constructor
          · intro he
            simp at he
          · intro hn; exact absurd hpre hn
      · rw [crlfToLf_cons_other c cs h, List.infix_cons_iff, crlf_prefix_iff]
        simp only [List.cons.injEq, true_and, ih cs (by omega)]
        constructor
        · intro hi hor
          rcases hor with hp | hi2
          · exact h hp
          · exact hi hi2
        · intro hn hi; exact hn (Or.inr hi)

/-- C5 as stated fails on the body CR CR LF: it contains CR LF, its normal form is
CR LF, which still contains CR LF, and normalising once more gives LF. -/
theorem normalizeBody_not_idempotent :
    normalizeBody (normalizeBody "\r\r\n") ≠ normalizeBody "\r\r\n"
    ∧ "\r\n".data <:+: "\r\r\n".data
    ∧ "\r\n".data <:+: (normalizeBody "\r\r\n").data := by
  refine ⟨by decide, by decide, by decide⟩

/-- C5, amended: the normal form of a body contains CR LF exactly when the body
contains CR CR LF, and normalising twice equals normalising once exactly when the
body does not contain CR CR LF. -/
theorem normalizeBody_idempotent_iff :
    (∀ b : String,
        normalizeBody (normalizeBody b) = normalizeBody b ↔ ¬ "\r\r\n".data <:+: b.data)
    ∧ (∀ b : String, "\r\n".data <:+: (normalizeBody b).data ↔ "\r\r\n".data <:+: b.data) := by
  have hinf : ∀ b : String,
      "\r\n".data <:+: (normalizeBody b).data ↔ "\r\r\n".data <:+: b.data := by
    intro b
    rw [normalizeBody_data]
    exact crlfToLf_infix _ _ (le_refl _)
  refine ⟨?_, hinf⟩
  intro b
  rw [← hinf b]
  have hfix := crlfToLf_eq_self_iff _ (normalizeBody b).data (le_refl _)
  rw [← normalizeBody_data] at hfix
  rw [← hfix]
  constructor
  · intro he; rw [he]
  · intro he
    have : (normalizeBody (normalizeBody b)).data = (normalizeBody b).data := he
    exact String.ext this

/-! ### The title order -/

theorem stringLess_iff (s t : String) : stringLess s t = true ↔ s < t := by
  simp [stringLess]

theorem stringLess_false_iff (s t : String) : stringLess s t = false ↔ t ≤ s := by
  rw [← not_lt, ← stringLess_iff]
  simp

theorem Less_cons_succ (h : milestone) (t : List milestone) (a b : Nat) :
    byTitle.Less (h :: t) (a + 1) (b + 1) = byTitle.Less t a b := by
  simp [byTitle.Less]

theorem Swap_cons_succ (h : milestone) (t : List milestone) (a b : Nat) :
    byTitle.Swap (h :: t) (a + 1) (b + 1) = h :: byTitle.Swap t a b := by
  simp only [byTitle.Swap, List.getElem?_cons_succ]
  cases t[a]? <;> cases t[b]? <;> simp

theorem set_perm_aux (t : List milestone) (b : Nat) (y h : milestone) (hb : t[b]? = some y) :
    (y :: t.set b h).Perm (h :: t) := by
  induction t generalizing b with
  | nil => simp at hb
  | cons z t ih =>
    cases b with
    | zero =>
      simp only [List.getElem?_cons_zero, Option.some.injEq] at hb
      subst hb
      simpa using List.Perm.swap h z t
    | succ b =>
      simp only [List.getElem?_cons_succ] at hb
      have h1 := ih b hb
      simp only [List.set_cons_succ]
      exact (List.Perm.swap z y _).trans (((h1.cons z)).trans (List.Perm.swap h z t))

theorem Swap_perm (l : List milestone) (a b : Nat) : (byTitle.Swap l a b).Perm l := by
  induction l generalizing a b with
  | nil => simp [byTitle.Swap]
  | cons h t ih =>
    cases a with
    | zero =>
      cases b with
      | zero => simp [byTitle.Swap]
      | succ b =>
        simp only [byTitle.Swap, List.getElem?_cons_zero, List.getElem?_cons_succ]
        cases hb : t[b]? with
        | none => simp
        | some y =>
          simp only [List.set_cons_zero, List.set_cons_succ]
          exact set_perm_aux t b y h hb
    | succ a =>
      cases b with
      | zero =>
        simp only [byTitle.Swap, List.getElem?_cons_zero, List.getElem?_cons_succ]
        cases ha : t[a]? with
        | none => simp
        | some x =>
          simp only [List.set_cons_zero, List.set_cons_succ]
          exact set_perm_aux t a x h ha
      | succ b =>
        rw [Swap_cons_succ]
        exact (ih a b).cons h

theorem SwapReach.refl (n : Nat) (l : List milestone) : SwapReach n l l :=
  ⟨[], by simp [swapsWithin], by simp [applySwaps]⟩

theorem SwapReach.step {n : Nat} {l l1 : List milestone} (h : SwapReach n l l1) (a b : Nat)
    (ha : a < n) (hb : b < n) : SwapReach n l (byTitle.Swap l1 a b) := by
  obtain ⟨swaps, hw, he⟩ := h
  refine ⟨swaps ++ [(a, b)], ?_, ?_⟩
  · intro p hp
    rcases List.mem_append.mp hp with hp | hp
    · exact hw p hp
    · simp only [List.mem_singleton] at hp
      subst hp
      exact ⟨ha, hb⟩
  · simp [applySwaps, List.foldl_append, he]

theorem SwapReach.perm {n : Nat} {l l1 : List milestone} (h : SwapReach n l l1) : l1.Perm l := by
  obtain ⟨swaps, hw, he⟩ := h
  subst he
  clear hw
  induction swaps using List.reverseRecOn with
  | nil => simp [applySwaps]
  | append_singleton swaps p ih =>
    simp only [applySwaps, List.foldl_append, List.foldl_cons, List.foldl_nil] at ih ⊢
    exact (Swap_perm _ _ _).trans ih

theorem insertionInner_reach (n a : Nat) (l : List milestone) :
    ∀ (j : Nat) (data : List milestone), j < n → SwapReach n l data →
      SwapReach n l (insertionInner a j data) := by
  intro j
  induction j with
  | zero => intro data _ h; simpa [insertionInner] using h
  | succ j ih =>
    intro data hj h
    rw [insertionInner]
    split
    · exact ih _ (by omega) (h.step (j + 1) j hj (by omega))
    · exact h

theorem insertionOuter_reach (n a : Nat) (l : List milestone) :
    ∀ (count i : Nat) (data : List milestone), i + count ≤ n → SwapReach n l data →
      SwapReach n l (insertionOuter a count i data) := by
  intro count
  induction count with
  | zero => intro i data _ h; simpa [insertionOuter] using h
  | succ count ih =>
    intro i data hi h
    rw [insertionOuter]
    exact ih (i + 1) _ (by omega) (insertionInner_reach n a l i data (by omega) h)

theorem gapPass_reach (n : Nat) (l : List milestone) :
    ∀ (count i : Nat) (data : List milestone), i + count ≤ n → SwapReach n l data →
      SwapReach n l (gapPass count i data) := by
  intro count
  induction count with
  | zero => intro i data _ h; simpa [gapPass] using h
  | succ count ih =>
    intro i data hi h
    rw [gapPass]
    apply ih (i + 1) _ (by omega)
    split
    · exact h.step i (i - 6) (by omega) (by omega)
    · exact h

theorem insertionSort_reach (n : Nat) (l data : List milestone) (h : SwapReach n l data) :
    SwapReach n l (insertionSort data 0 n) := by
  unfold insertionSort
  cases n with
  | zero => simpa [insertionOuter] using h
  | succ n => exact insertionOuter_reach (n + 1) 0 l n 1 data (by omega) h

theorem sortInsertion_reach (l : List milestone) :
    SwapReach (byTitle.Len l) l (sortInsertion l) :=
  insertionSort_reach _ l l (SwapReach.refl _ l)

theorem sortSmall_reach (l : List milestone) : SwapReach (byTitle.Len l) l (sortSmall l) := by
  unfold sortSmall
  simp only
  split
  · apply insertionSort_reach
    by_cases h6 : 6 ≤ byTitle.Len l
    · exact gapPass_reach _ l _ 6 l (by omega) (SwapReach.refl _ l)
    · have : byTitle.Len l - 6 = 0 := by omega
      rw [this]
      simpa [gapPass] using SwapReach.refl _ l
  · exact SwapReach.refl _ l

theorem Less_adjacent (pre : List milestone) (y x : milestone) (post : List milestone) :
    byTitle.Less (pre ++ y :: x :: post) (pre.length + 1) pre.length
      = stringLess x.Milestone.Title y.Milestone.Title := by
  induction pre with
  | nil => simp [byTitle.Less]
  | cons h pre ih =>
    simp only [List.cons_append, List.length_cons]
    rw [Less_cons_succ]
    exact ih

theorem Swap_adjacent (pre : List milestone) (y x : milestone) (post : List milestone) :
    byTitle.Swap (pre ++ y :: x :: post) (pre.length + 1) pre.length = pre ++ x :: y :: post := by
  induction pre with
  | nil => simp [byTitle.Swap]
  | cons h pre ih =>
    simp only [List.cons_append, List.length_cons]
    rw [Swap_cons_succ, ih]

/-- One run of the inner loop of insertionSort on a sorted prefix followed by one
more record: the prefix and the record end up sorted, the rest is untouched. -/
theorem insertionInner_spec (pre : List milestone) :
    ∀ (x : milestone) (post : List milestone), TitleSorted pre →
      ∃ mid, mid.Perm (pre ++ [x]) ∧ TitleSorted mid
        ∧ insertionInner 0 pre.length (pre ++ x :: post) = mid ++ post := by
  induction pre using List.reverseRecOn with
  | nil =>
    intro x post _
    exact ⟨[x], by simp, by simp [TitleSorted], by simp [insertionInner]⟩
  | append_singleton pre y ih =>
    intro x post hs
    have hs2 := List.pairwise_append.mp hs
    have hlen : (pre ++ [y]).length = pre.length + 1 := by simp
    have hdata : pre ++ [y] ++ x :: post = pre ++ y :: x :: post := by simp
    rw [hlen, hdata, insertionInner, Less_adjacent]
    by_cases hlt : stringLess x.Milestone.Title y.Milestone.Title = true
    · rw [if_pos ⟨by omega, hlt⟩, Swap_adjacent]
      obtain ⟨mid, hp, hsorted, he⟩ := ih x (y :: post) hs2.1
      refine ⟨mid ++ [y], ?_, ?_, ?_⟩
      · have h1 : (mid ++ [y]).Perm ((pre ++ [x]) ++ [y]) := hp.append_right [y]
        refine h1.trans ?_
        simp only [List.append_assoc]
        exact List.Perm.append_left pre (List.Perm.swap y x [])
      · refine List.pairwise_append.mpr ⟨hsorted, by simp, ?_⟩
        intro a ha b hb
        simp only [List.mem_singleton] at hb
        subst hb
        have ha2 : a ∈ pre ++ [x] := hp.mem_iff.mp ha
        rcases List.mem_append.mp ha2 with ha3 | ha3
        · exact hs2.2.2 a ha3 b (by simp)
        · simp only [List.mem_singleton] at ha3
          subst ha3
          exact le_of_lt ((stringLess_iff _ _).mp hlt)
      · rw [he]; simp
    · rw [if_neg (fun h => hlt h.2)]
      refine ⟨pre ++ [y] ++ [x], List.Perm.refl _, ?_, by simp⟩
      refine List.pairwise_append.mpr ⟨hs, by simp, ?_⟩
      intro a ha b hb
      simp only [List.mem_singleton] at hb
      subst hb
      have hyx : y.Milestone.Title ≤ b.Milestone.Title := by
        rw [← stringLess_false_iff]
        simpa using hlt
      rcases List.mem_append.mp ha with ha3 | ha3
      · exact le_trans (hs2.2.2 a ha3 y (by simp)) hyx
      · simp only [List.mem_singleton] at ha3
        subst ha3
        exact hyx

theorem insertionInner_length (a : Nat) :
    ∀ (j : Nat) (data : List milestone), (insertionInner a j data).length = data.length := by
  intro j data
  have h := insertionInner_reach (max (j + 1) data.length) a data j data
    (by omega) (SwapReach.refl _ data)
  exact h.perm.length_eq

/-- The outer loop of insertionSort keeps the part before its loop variable
sorted. -/
theorem insertionOuter_sorted :
    ∀ (count i : Nat) (data : List milestone), i + count ≤ data.length →
      TitleSorted (data.take i) →
      TitleSorted ((insertionOuter 0 count i data).take (i + count)) := by
  intro count
  induction count with
  | zero => intro i data _ h; simpa [insertionOuter] using h
  | succ count ih =>
    intro i data hi hs
    rw [insertionOuter]
    have hlt : i < data.length := by omega
    have hsplit : data = data.take i ++ data[i] :: data.drop (i + 1) := by
      rw [← List.drop_eq_getElem_cons hlt, List.take_append_drop]
    have hlen : (data.take i).length = i := by
      rw [List.length_take]; omega
    obtain ⟨mid, hp, hsorted, he⟩ := insertionInner_spec (data.take i) data[i]
      (data.drop (i + 1)) hs
    rw [hlen, ← hsplit] at he
    have hmid : mid.length = i + 1 := by
      rw [hp.length_eq, List.length_append, hlen]; rfl
    have hnext : TitleSorted ((insertionInner 0 i data).take (i + 1)) := by
      rw [he, List.take_append_of_le_length (by omega), List.take_of_length_le (by omega)]
      exact hsorted
    have := ih (i + 1) (insertionInner 0 i data)
      (by rw [insertionInner_length]; omega) hnext
    have hidx : i + 1 + count = i + (count + 1) := by omega
    rw [hidx] at this
    exact this

theorem insertionSort_sorted (data : List milestone) :
    TitleSorted (insertionSort data 0 data.length) := by
  unfold insertionSort
  cases hd : data with
  | nil => simp [insertionOuter, TitleSorted]
  | cons h t =>
    have h1 := insertionOuter_sorted t.length 1 (h :: t) (by simp; omega)
      (by simp [TitleSorted])
    have hlen : (insertionOuter 0 t.length 1 (h :: t)).length = t.length + 1 := by
      have := (insertionOuter_reach (t.length + 1) 0 (h :: t) t.length 1 (h :: t) (by omega)
        (SwapReach.refl _ _)).perm.length_eq
      simpa using this
    rw [List.take_of_length_le (by omega)] at h1
    simpa using h1

theorem Less_false_of_sorted (l : List milestone) (hs : TitleSorted l) (i : Nat)
    (hi : i + 1 < byTitle.Len l) : byTitle.Less l (i + 1) i = false := by
  unfold byTitle.Len at hi
  have h1 : l[i + 1]? = some l[i + 1] := List.getElem?_eq_getElem hi
  have h0 : l[i]? = some l[i] := List.getElem?_eq_getElem (by omega)
  simp only [byTitle.Less, h1, h0]
  rw [stringLess_false_iff]
  exact (List.pairwise_iff_getElem.mp hs) i (i + 1) (by omega) hi (by omega)

theorem sortInsertion_contract : SortContract sortInsertion := by
  intro l
  refine ⟨sortInsertion_reach l, ?_⟩
  intro i hi
  exact Less_false_of_sorted _ (insertionSort_sorted l) i hi

theorem sortSmall_contract : SortContract sortSmall := by
  intro l
  refine ⟨sortSmall_reach l, ?_⟩
  intro i hi
  apply Less_false_of_sorted _ _ i hi
  unfold sortSmall
  simp only
  split
  · have hlen : (gapPass (byTitle.Len l - 6) 6 l).length = byTitle.Len l := by
      by_cases h6 : 6 ≤ byTitle.Len l
      · exact (gapPass_reach (byTitle.Len l) l (byTitle.Len l - 6) 6 l (by omega)
          (SwapReach.refl _ l)).perm.length_eq
      · have : byTitle.Len l - 6 = 0 := by omega
        rw [this]; rfl
    have := insertionSort_sorted (gapPass (byTitle.Len l - 6) 6 l)
    rw [hlen] at this
    exact this
  · rename_i hn
    unfold byTitle.Len at hn
    match l, hn with
    | [], _ => simp [TitleSorted]
    | [x], _ => simp [TitleSorted]
    | _ :: _ :: _, hn => simp at hn

/-! ### The aggregated records -/

theorem generateOverviewRun_ok (flags : Flags) (env : Env) (run : Run)
    (h : generateOverviewRun flags env = .ok run) :
    ∃ ms out calls,
      env.LoadMilestones "syncthing/syncthing" [("sort", "due_date"), ("direction", "asc")]
        = .ok ms
      ∧ issuesLoop env (filterMilestones flags.includeDue flags.includeNonDue ms) = .ok (out, calls)
      ∧ run.data.milestones = env.sortSort out := by
  simp only [generateOverviewRun] at h
  split at h
  · cases h
  · split at h
    · cases h
    · rename_i ms hms
      split at h
      · cases h
      · rename_i out calls hloop
        split at h
        · cases h
        · simp only [Except.ok.injEq] at h
          subst h
          exact ⟨ms, out, calls, hms, hloop, rfl⟩

theorem issuesLoop_spec (env : Env) (l out : List milestone) (calls : List Call)
    (h : issuesLoop env l = .ok (out, calls)) :
    List.Forall₂
      (fun m record => record.Milestone = m.Milestone
        ∧ ∃ issues,
            env.LoadIssues "syncthing/syncthing" [("milestone", toString m.Milestone.Number)]
              = .ok issues
            ∧ record.Issues = normalizeBodies issues)
      l out := by
  induction l generalizing out calls with
  | nil =>
    simp only [issuesLoop, Except.ok.injEq, Prod.mk.injEq] at h
    rw [← h.1]
    exact List.Forall₂.nil
  | cons m rest ih =>
    simp only [issuesLoop] at h
    split at h
    · cases h
    · rename_i issues hissues
      split at h
      · cases h
      · rename_i rest1 calls1 hrest
        simp only [Except.ok.injEq, Prod.mk.injEq] at h
        rw [← h.1]
        refine List.Forall₂.cons ⟨rfl, issues, ?_, rfl⟩ (ih _ _ hrest)
        simpa [Values.Add] using hissues

theorem forall₂_wrap (ms : List github.Milestone) (out : List milestone)
    (P : github.Milestone → milestone → Prop)
    (h : List.Forall₂ (fun m record => P m.Milestone record) (ms.map wrap) out) :
    List.Forall₂ P ms out := by
  induction ms generalizing out with
  | nil =>
    cases h
    exact List.Forall₂.nil
  | cons m ms ih =>
    cases h with
    | cons h1 h2 => exact List.Forall₂.cons h1 (ih _ h2)

theorem chain_of_contract (sortSort : List milestone → List milestone)
    (hsort : SortContract sortSort) (l : List milestone) :
    List.Chain' (fun a b => a.Milestone.Title ≤ b.Milestone.Title) (sortSort l) := by
  rw [List.chain'_iff_get]
  intro i hi
  have hlt : i + 1 < byTitle.Len (sortSort l) := by unfold byTitle.Len; omega
  have hless := (hsort l).2 i hlt
  unfold byTitle.Len at hlt
  have h1 : (sortSort l)[i + 1]? = some (sortSort l)[i + 1] := List.getElem?_eq_getElem hlt
  have h0 : (sortSort l)[i]? = some (sortSort l)[i] := List.getElem?_eq_getElem (by omega)
  simp only [byTitle.Less, h1, h0] at hless
  rw [stringLess_false_iff] at hless
  simpa using hless

/-- C6: with a sort.Sort that meets its contract, the list handed to the template
is in non-decreasing order of Title: every record's title is at most the title of
the record after it, for the sort step on any list and for every run of
generateOverview. -/
theorem generateOverview_sorted (flags : Flags) (env : Env)
    (hsort : SortContract env.sortSort) :
    (∀ l : List milestone,
        List.Chain' (fun a b => a.Milestone.Title ≤ b.Milestone.Title) (env.sortSort l))
    ∧ (∀ run, generateOverviewRun flags env = .ok run →
        List.Chain' (fun a b => a.Milestone.Title ≤ b.Milestone.Title) run.data.milestones) := by
  refine ⟨chain_of_contract env.sortSort hsort, ?_⟩
  intro run h
  obtain ⟨ms, out, calls, _, _, hd⟩ := generateOverviewRun_ok flags env run h
  rw [hd]
  exact chain_of_contract env.sortSort hsort out

/-- C6 on the two milestone scenario with both kinds kept: "Backlog" comes to stand
before "v1.0". -/
theorem generateOverview_sorted_witness :
    SortContract exEnv.sortSort
    ∧ generateOverviewRun exFlagsAll exEnv = .ok exRunAll
    ∧ exRunAll.data.milestones.map (fun m => m.Milestone.Title) = ["Backlog", "v1.0"]
    ∧ List.Chain' (fun a b => a.Milestone.Title ≤ b.Milestone.Title) exRunAll.data.milestones :=
  ⟨sortInsertion_contract, by decide, by decide,
   (generateOverview_sorted exFlagsAll exEnv sortInsertion_contract).2 exRunAll (by decide)⟩

/-- C7 as stated fails: with the sort.Sort that makes the gap pass (Go releases up
to 1.18), which meets the contract, the run on seven milestones puts milestone 2 before milestone 1 although
both are titled "b" and the tracker returned 1 before 2. -/
theorem sort_not_stable :
    SortContract exEnvSeven.sortSort
    ∧ generateOverviewRun Flags.defaults exEnvSeven = .ok exRunSeven
    ∧ (filterMilestones true false exSeven).filter (fun m => m.Milestone.Title = "b")
        = [wrap (exDated 1 "b"), wrap (exDated 2 "b")]
    ∧ exRunSeven.data.milestones.filter (fun m => m.Milestone.Title = "b")
        = [wrap (exDated 2 "b"), wrap (exDated 1 "b")]
    ∧ ¬ StableOn (filterMilestones true false exSeven) exRunSeven.data.milestones := by
  refine ⟨sortSmall_contract, by decide, by decide, by decide, ?_⟩
  intro h
  exact absurd (h "b") (by decide)

/-- C7, amended: a sort.Sort that meets its contract keeps, for every title, the
same records with that title, possibly in another order; when no two different
records of the list share a title, their order is kept as well. -/
theorem sort_keeps_titles (sortSort : List milestone → List milestone)
    (hsort : SortContract sortSort) (l : List milestone) :
    (∀ title : String,
        ((sortSort l).filter (fun m => m.Milestone.Title = title)).Perm
          (l.filter (fun m => m.Milestone.Title = title)))
    ∧ ((∀ a ∈ l, ∀ b ∈ l, a.Milestone.Title = b.Milestone.Title → a = b) →
        StableOn l (sortSort l)) := by
  have hperm : (sortSort l).Perm l := (hsort l).1.perm
  refine ⟨fun title => hperm.filter _, ?_⟩
  intro hinj title
  have hp : ((sortSort l).filter (fun m => m.Milestone.Title = title)).Perm
      (l.filter (fun m => m.Milestone.Title = title)) := hperm.filter _
  cases hl : l.filter (fun m => m.Milestone.Title = title) with
  | nil =>
    rw [hl] at hp
    exact hp.eq_nil
  | cons a rest =>
    have ha : a ∈ l.filter (fun m => m.Milestone.Title = title) := by rw [hl]; simp
    have hall : ∀ (s : List milestone),
        s.Perm (l.filter (fun m => m.Milestone.Title = title)) →
        s = List.replicate s.length a := by
      intro s hs
      rw [List.eq_replicate_iff]
      refine ⟨rfl, ?_⟩
      intro b hb
      have hb2 := hs.mem_iff.mp hb
      rw [List.mem_filter] at hb2 ha
      simp only [decide_eq_true_eq] at hb2 ha
      exact hinj b hb2.1 a ha.1 (hb2.2.trans ha.2.symm)
    rw [← hl, hall _ hp, hall _ (List.Perm.refl _), hp.length_eq]

/-- C7, amended, on the two milestone scenario, whose titles differ. -/
theorem sort_keeps_titles_witness :
    SortContract sortSmall
    ∧ (∀ a ∈ [wrap exV1, wrap exBacklog], ∀ b ∈ [wrap exV1, wrap exBacklog],
        a.Milestone.Title = b.Milestone.Title → a = b)
    ∧ StableOn [wrap exV1, wrap exBacklog] (sortSmall [wrap exV1, wrap exBacklog]) :=
  ⟨sortSmall_contract, by decide,
   (sort_keeps_titles sortSmall sortSmall_contract [wrap exV1, wrap exBacklog]).2 (by decide)⟩

theorem forall₂_exists_left {α β : Type} (R : α → β → Prop) (l1 : List α) (l2 : List β)
    (h : List.Forall₂ R l1 l2) : ∀ b ∈ l2, ∃ a ∈ l1, R a b := by
  induction h with
  | nil => intro b hb; simp at hb
  | cons h1 _ ih =>
    intro b hb
    rcases List.mem_cons.mp hb with hb | hb
    · subst hb
      exact ⟨_, List.mem_cons_self _ _, h1⟩
    · obtain ⟨a, ha, hr⟩ := ih b hb
      exact ⟨a, List.mem_cons_of_mem _ ha, hr⟩

theorem normalizeBodies_forall₂ (issues : List github.Issue) :
    List.Forall₂
      (fun i o => o.Number = i.Number ∧ o.Title = i.Title ∧ o.Labels = i.Labels
        ∧ o.Milestone = i.Milestone ∧ o.Body = normalizeBody i.Body)
      issues (normalizeBodies issues) := by
  induction issues with
  | nil => exact List.Forall₂.nil
  | cons i rest ih => exact List.Forall₂.cons ⟨rfl, rfl, rfl, rfl, rfl⟩ ih

/-- C8: with a sort.Sort that meets its contract, the records handed to the template
are a permutation of the records built for the retained milestones, one per
retained milestone in the tracker's order, each holding its milestone and the issues
fetched with milestone=Number, in fetched order and changed in Body only. Hence,
when the tracker returns for each of the milestones only issues of that milestone,
every issue of a record names the record's milestone and no issue stands under two
milestone numbers. -/
theorem generateOverview_records (flags : Flags) (env : Env) (ms : List github.Milestone)
    (run : Run) (hsort : SortContract env.sortSort)
    (hms : env.LoadMilestones "syncthing/syncthing" [("sort", "due_date"), ("direction", "asc")]
      = .ok ms)
    (h : generateOverviewRun flags env = .ok run) :
    (∃ records,
      run.data.milestones.Perm records
      ∧ List.Forall₂
          (fun m record => record.Milestone = m
            ∧ ∃ issues,
                env.LoadIssues "syncthing/syncthing" [("milestone", toString m.Number)]
                  = .ok issues
                ∧ record.Issues = normalizeBodies issues
                ∧ List.Forall₂
                    (fun i o => o.Number = i.Number ∧ o.Title = i.Title ∧ o.Labels = i.Labels
                      ∧ o.Milestone = i.Milestone ∧ o.Body = normalizeBody i.Body)
                    issues record.Issues)
          (ms.filter (fun m =>
            (m.Due.isSome && flags.includeDue) || (m.Due.isNone && flags.includeNonDue)))
          records)
    ∧ ((∀ m ∈ ms, ∀ issues,
          env.LoadIssues "syncthing/syncthing" [("milestone", toString m.Number)] = .ok issues →
          ∀ i ∈ issues, i.Milestone = some m.Number) →
        (∀ record ∈ run.data.milestones, ∀ i ∈ record.Issues,
            i.Milestone = some record.Milestone.Number)
        ∧ (∀ r1 ∈ run.data.milestones, ∀ r2 ∈ run.data.milestones, ∀ i,
            i ∈ r1.Issues → i ∈ r2.Issues → r1.Milestone.Number = r2.Milestone.Number)) := by
  obtain ⟨ms1, out, calls, hms1, hloop, hd⟩ := generateOverviewRun_ok flags env run h
  rw [hms] at hms1
  cases hms1
  have hperm : run.data.milestones.Perm out := by
    rw [hd]; exact (hsort out).1.perm
  rw [filterMilestones_eq] at hloop
  have hrec := forall₂_wrap _ _
    (fun m record => record.Milestone = m
      ∧ ∃ issues,
          env.LoadIssues "syncthing/syncthing" [("milestone", toString m.Number)] = .ok issues
          ∧ record.Issues = normalizeBodies issues)
    (issuesLoop_spec env _ out calls hloop)
  have hmain : ∀ record ∈ run.data.milestones, ∃ m ∈ ms, record.Milestone = m
      ∧ ∃ issues,
          env.LoadIssues "syncthing/syncthing" [("milestone", toString m.Number)] = .ok issues
          ∧ record.Issues = normalizeBodies issues := by
    intro record hr
    obtain ⟨m, hm, hR⟩ := forall₂_exists_left _ _ _ hrec record (hperm.mem_iff.mp hr)
    exact ⟨m, (List.mem_filter.mp hm).1, hR⟩
  have hfirst : ∀ record ∈ run.data.milestones,
      (∀ m ∈ ms, ∀ issues,
          env.LoadIssues "syncthing/syncthing" [("milestone", toString m.Number)] = .ok issues →
          ∀ i ∈ issues, i.Milestone = some m.Number) →
      ∀ i ∈ record.Issues, i.Milestone = some record.Milestone.Number := by
    intro record hr htr i hi
    obtain ⟨m, hm, hrm, issues, hload, hiss⟩ := hmain record hr
    rw [hiss] at hi
    simp only [normalizeBodies, List.mem_map] at hi
    obtain ⟨i0, hi0, rfl⟩ := hi
    rw [hrm]
    exact htr m hm issues hload i0 hi0
  refine ⟨⟨out, hperm, ?_⟩, ?_⟩
  · refine hrec.imp ?_
    rintro m record ⟨h1, issues, h2, h3⟩
    refine ⟨h1, issues, h2, h3, ?_⟩
    rw [h3]
    exact normalizeBodies_forall₂ issues
  · intro htr
    refine ⟨fun record hr => hfirst record hr htr, ?_⟩
    intro r1 hr1 r2 hr2 i hi1 hi2
    have e1 := hfirst r1 hr1 htr i hi1
    have e2 := hfirst r2 hr2 htr i hi2
    rw [e1] at e2
    exact Option.some.inj e2

/-- C8 on the two milestone scenario with both kinds kept: each of the two records
holds the one issue of its own milestone. -/
theorem generateOverview_records_witness :
    SortContract exEnv.sortSort
    ∧ exEnv.LoadMilestones "syncthing/syncthing" [("sort", "due_date"), ("direction", "asc")]
        = .ok [exV1, exBacklog]
    ∧ generateOverviewRun exFlagsAll exEnv = .ok exRunAll
    ∧ (∀ record ∈ exRunAll.data.milestones, ∀ i ∈ record.Issues,
        i.Milestone = some record.Milestone.Number) :=
  ⟨sortInsertion_contract, by decide, by decide,
   ((generateOverview_records exFlagsAll exEnv [exV1, exBacklog] exRunAll sortInsertion_contract
      (by decide) (by decide)).2
      (by
        intro m hm issues hload i hi
        simp only [List.mem_cons, List.mem_singleton, List.not_mem_nil, or_false] at hm
        rcases hm with rfl | rfl
        · have hc : exEnv.LoadIssues "syncthing/syncthing"
              [("milestone", toString exV1.Number)] = .ok [exIssue1] := by decide
          rw [hc] at hload
          cases hload
          simp only [List.mem_singleton] at hi
          subst hi
          decide
        · have hc : exEnv.LoadIssues "syncthing/syncthing"
              [("milestone", toString exBacklog.Number)] = .ok [exIssue2] := by decide
          rw [hc] at hload
          cases hload
          simp only [List.mem_singleton] at hi
          subst hi
          decide)).1⟩

/-! ### Requests queued on the cache lock -/

theorem timeSince_le_of_sub_le (now t : Time) (d : Duration) (hd : minDuration ≤ d)
    (h : now - t ≤ d) : timeSince now t ≤ d := by
  unfold timeSince Time.Sub
  split
  · rename_i hgt
    exact le_of_lt (lt_of_lt_of_le hgt h)
  · split
    · exact hd
    · exact h

theorem handle_of_stale (flags : Flags) (env : Env) (t1 t2 : Time) (c : cache)
    (h : flags.cacheTime < timeSince t1 c.updated) :
    ((handle flags env t1 t2 c).refreshes = 1)
    ∧ (handle flags env t1 t2 c).result
        = (match generateOverview flags env with
          | .error err => .error err
          | .ok data =>
            .ok ({ data := data, updated := t2 },
              { header := [("Content-Type", "text/html; charset=utf-8")], body := data })) := by
  unfold handle
  rw [if_pos h]
  cases generateOverview flags env <;> exact ⟨rfl, rfl⟩

theorem handle_of_not_stale (flags : Flags) (env : Env) (t1 t2 : Time) (c : cache)
    (h : timeSince t1 c.updated ≤ flags.cacheTime) :
    (handle flags env t1 t2 c).refreshes = 0
    ∧ (handle flags env t1 t2 c).result
        = .ok (c, { header := [("Content-Type", "text/html; charset=utf-8")], body := c.data }) := by
  unfold handle
  rw [if_neg (not_lt.mpr h)]
  exact ⟨rfl, rfl⟩

/-- Requests that all find the cache no older than cacheTime are served from it
without a refresh. -/
theorem serve_not_stale (flags : Flags) (env : Env) (c : cache) :
    ∀ queue : List (Time × Time),
      (∀ p ∈ queue, timeSince p.1 c.updated ≤ flags.cacheTime) →
      (serve flags env queue c).refreshes = 0
      ∧ (serve flags env queue c).result
          = .ok (c, List.replicate queue.length
              { header := [("Content-Type", "text/html; charset=utf-8")], body := c.data }) := by
  intro queue
  induction queue with
  | nil => intro _; exact ⟨rfl, rfl⟩
  | cons p rest ih =>
    intro h
    obtain ⟨t1, t2⟩ := p
    have hh := handle_of_not_stale flags env t1 t2 c (h (t1, t2) (List.mem_cons_self _ _))
    have hr := ih (fun q hq => h q (List.mem_cons_of_mem _ hq))
    simp only [serve, hh.1, hh.2, hr.1, hr.2, List.length_cons, List.replicate_succ]
    exact ⟨trivial, trivial⟩

/-- C10, amended: of the requests that queue on the cache lock and are served one
after the other, let the first find the cache stale and let every later one read the
clock no more than cacheTime after the timestamp the refresh set. Then
generateOverview runs exactly once, for the first request; when it returns a buffer,
every response carries this buffer and the cache holds it; when it ends in a fatal
error, so does the process. -/
theorem serve_one_refresh (flags : Flags) (env : Env) (t1 t2 : Time)
    (rest : List (Time × Time)) (c : cache)
    (hd : minDuration ≤ flags.cacheTime)
    (hstale : flags.cacheTime < timeSince t1 c.updated)
    (hwithin : ∀ p ∈ rest, p.1 - t2 ≤ flags.cacheTime) :
    (serve flags env ((t1, t2) :: rest) c).refreshes = 1
    ∧ (∀ buf, generateOverview flags env = .ok buf →
        (serve flags env ((t1, t2) :: rest) c).result
          = .ok ({ data := buf, updated := t2 },
              List.replicate (rest.length + 1)
                { header := [("Content-Type", "text/html; charset=utf-8")], body := buf }))
    ∧ (∀ err, generateOverview flags env = .error err →
        (serve flags env ((t1, t2) :: rest) c).result = .error err) := by
  have hh := handle_of_stale flags env t1 t2 c hstale
  cases hg : generateOverview flags env with
  | error e =>
    rw [hg] at hh
    simp only [serve, hh.1, hh.2]
    refine ⟨trivial, ?_, ?_⟩
    · intro buf hb; cases hb
    · intro err he; cases he; rfl
  | ok data =>
    rw [hg] at hh
    have hr := serve_not_stale flags env { data := data, updated := t2 } rest
      (fun p hp => timeSince_le_of_sub_le p.1 t2 flags.cacheTime hd (hwithin p hp))
    simp only [serve, hh.1, hh.2, hr.1, hr.2, List.replicate_succ]
    refine ⟨trivial, ?_, ?_⟩
    · intro buf hb; cases hb; rfl
    · intro err he; cases he

/-- C10, amended, with the default lifetime: three requests find the cache stale,
the first refreshes a little over an hour after the last refresh, and all three get
the new page. -/
theorem serve_one_refresh_witness :
    minDuration ≤ Flags.defaults.cacheTime
    ∧ Flags.defaults.cacheTime < timeSince (100 + Hour + 1) 100
    ∧ (serve Flags.defaults exEnv
          [(100 + Hour + 1, 100 + Hour + 5), (100 + Hour + 6, 100 + Hour + 7),
           (100 + Hour + 8, 100 + Hour + 9)]
          { data := [7], updated := 100 }).refreshes = 1
    ∧ (serve Flags.defaults exEnv
          [(100 + Hour + 1, 100 + Hour + 5), (100 + Hour + 6, 100 + Hour + 7),
           (100 + Hour + 8, 100 + Hour + 9)]
          { data := [7], updated := 100 }).result
        = .ok ({ data := [19, 1], updated := 100 + Hour + 5 },
            List.replicate 3
              { header := [("Content-Type", "text/html; charset=utf-8")], body := [19, 1] }) :=
  ⟨by decide, by decide,
   (serve_one_refresh Flags.defaults exEnv (100 + Hour + 1) (100 + Hour + 5)
      [(100 + Hour + 6, 100 + Hour + 7), (100 + Hour + 8, 100 + Hour + 9)]
      { data := [7], updated := 100 } (by decide) (by decide) (by decide)).1,
   (serve_one_refresh Flags.defaults exEnv (100 + Hour + 1) (100 + Hour + 5)
      [(100 + Hour + 6, 100 + Hour + 7), (100 + Hour + 8, 100 + Hour + 9)]
      { data := [7], updated := 100 } (by decide) (by decide) (by decide)).2.1 [19, 1]
      (by decide)⟩

/-- C10 as stated fails with the flag value cache=0: three requests queue while the
cache is stale and are served one nanosecond apart, and generateOverview runs three
times, once for each. -/
theorem serve_zero_lifetime_refreshes_each :
    (0 : Duration) < timeSince 10 cache.zero.updated
    ∧ (serve { Flags.defaults with cacheTime := 0 } exEnv [(10, 11), (12, 13), (14, 15)]
          cache.zero).refreshes = 3
    ∧ (serve { Flags.defaults with cacheTime := 0 } exEnv [(10, 11), (12, 13), (14, 15)]
          cache.zero).result
        = .ok ({ data := [19, 1], updated := 15 },
            List.replicate 3
              { header := [("Content-Type", "text/html; charset=utf-8")], body := [19, 1] }) := by
  refine ⟨by decide, by decide, by decide⟩

end Ghbacklog
